import Mathlib

/-!
Shallow embedding of the squashfs-util metadata decoder (src/main.go).

The image is modelled as a partial byte source `Src : Nat → Option (Fin 256)`:
`none` means the offset is past the end of the underlying storage, so a
`ReadAt` of `n` bytes succeeds exactly when all `n` offsets are populated
(Go's `io.ReaderAt` returns an error on any short read, and every call site
in the source treats a short read as fatal).

Go `string` values are byte strings; we model them as Lean `String`s whose
characters are the code points of the individual bytes (the mapping is
injective on 0..255, and Go's `path.Clean` only ever compares bytes against
the ASCII characters `/` and `.`, so the models agree byte for byte).

Fatal exits (`log.Fatalf`) and returned `error` values are both modelled as
`Except DecodeError`; the distinct constructors record which failure site
fired.  `Panic` stands for the Go runtime panic raised by the unchecked
slice expression `m[byteOffset:]` in `readMetadata`.  Loops whose Go
termination relies on the file being finite take an explicit fuel argument;
wrappers pass a fuel that dominates the number of iterations, and
`OutOfFuel` marks the (unreachable for adequate fuel) exhaustion case.
-/

set_option maxRecDepth 40000

abbrev Byte := Fin 256

abbrev Src := Nat → Option Byte

inductive DecodeError where
  | TruncatedRead
  | UnsupportedCompression
  | OversizedDirectory
  | OversizedName
  | TruncatedEntry
  | TruncatedHeader
  | Panic
  | OutOfFuel
  deriving DecidableEq, Repr

/-- Constants from the Go source. -/
def basicDirectory : Nat := 1

def extendedDirectory : Nat := 8

def inodeHeaderSize : Nat := 16

def maxDirEntries : Nat := 256

def dirHeaderSize : Nat := 12

def dirEntryMinSize : Nat := 8

def dirNameMaxSize : Nat := 256

def metadataSize : Nat := 8192

/-- Tail-recursive accumulator loop for `readAt`. -/
def readAtAux (r : Src) : Nat → Nat → List Byte → Option (List Byte)
  | _, 0, acc => some acc.reverse
  | off, n + 1, acc =>
    match r off with
    | none => none
    | some c => readAtAux r (off + 1) n (c :: acc)

/-- Model of `f.ReadAt(b, offset)` with `len(b) = n`: succeeds iff every one
of the `n` bytes is available, mirroring the source's fatal handling of
errors and short reads. -/
def readAt (r : Src) (off n : Nat) : Option (List Byte) :=
  readAtAux r off n []

/-- Byte `i` of a buffer (call sites bounds-check first, as the Go code does
before indexing). -/
def byteAt (b : List Byte) (i : Nat) : Nat :=
  (b.getD i 0).val

/-- `binary.LittleEndian.Uint16(b[i:i+2])`. -/
def u16le (b : List Byte) (i : Nat) : Nat :=
  byteAt b i + 256 * byteAt b (i + 1)

/-- `binary.LittleEndian.Uint32(b[i:i+4])`. -/
def u32le (b : List Byte) (i : Nat) : Nat :=
  byteAt b i + 256 * byteAt b (i + 1) + 65536 * byteAt b (i + 2) +
    16777216 * byteAt b (i + 3)

/-- `readMetadataBlock`: 2-byte header (low 15 bits payload size, bit 15 set
means stored uncompressed, i.e. `header&0x8000 != 0x8000` — equivalently
`header < 32768` since the header is a 16-bit value — means compressed and
is rejected), then the payload.  Returns `(bytesConsumed, payload)`. -/
def readMetadataBlock (r : Src) (location : Nat) :
    Except DecodeError (Nat × List Byte) :=
  match readAt r location 2 with
  | none => .error .TruncatedRead
  | some hb =>
    -- header = u16le hb 0; compressed = header&0x8000 != 0x8000, i.e.
    -- header < 32768 for a 16-bit header; payload size = header & 0x7fff
    if u16le hb 0 < 32768 then .error .UnsupportedCompression
    else
      match readAt r (location + 2) (u16le hb 0 % 32768) with
      | none => .error .TruncatedRead
      | some payload => .ok (payload.length + 2, payload)

/-- The `for len(b) < size` loop of `readMetadata`: at the top of each
iteration the Go code advances `blockOffset += read` and reads the next
block at `firstBlock + blockOffset`. -/
def readMetadataLoop (r : Src) (firstBlock size : Nat) :
    Nat → Nat → Nat → List Byte → Except DecodeError (List Byte)
  | 0, _, _, b =>
    if b.length < size then .error .OutOfFuel else .ok (b.take size)
  | f + 1, blockOffset, read, b =>
    if b.length < size then
      match readMetadataBlock r (firstBlock + (blockOffset + read)) with
      | .error e => .error e
      | .ok (read', m) =>
        readMetadataLoop r firstBlock size f (blockOffset + read) read' (b ++ m)
    else .ok (b.take size)

/-- `readMetadata(r, firstBlock, initialBlockOffset, byteOffset, size)`.
The Go source evaluates `m[byteOffset:]` without a bounds check; when
`byteOffset > len(m)` that is a runtime panic, modelled by `.Panic`. -/
def readMetadata (fuel : Nat) (r : Src) (firstBlock initialBlockOffset byteOffset size : Nat) :
    Except DecodeError (List Byte) :=
  match readMetadataBlock r (firstBlock + initialBlockOffset) with
  | .error e => .error e
  | .ok (read, m) =>
    if byteOffset ≤ m.length then
      readMetadataLoop r firstBlock size fuel initialBlockOffset read (m.drop byteOffset)
    else .error .Panic

theorem readAtAux_length (r : Src) :
    ∀ n off acc l, readAtAux r off n acc = some l → l.length = n + acc.length := by
  intro n
  induction n with
  | zero =>
    intro off acc l h
    simp [readAtAux] at h
    simp [← h]
  | succ n ih =>
    intro off acc l h
    simp only [readAtAux] at h
    cases hr : r off with
    | none => simp [hr] at h
    | some c =>
      rw [hr] at h
      have := ih (off + 1) (c :: acc) l h
      simp at this
      omega

theorem readAt_length (r : Src) (off n : Nat) (l : List Byte)
    (h : readAt r off n = some l) : l.length = n := by
  have := readAtAux_length r n off [] l h
  simpa using this

theorem readMetadataBlock_consumed (r : Src) (loc n : Nat) (payload : List Byte)
    (h : readMetadataBlock r loc = .ok (n, payload)) : n = payload.length + 2 := by
  unfold readMetadataBlock at h
  cases h2 : readAt r loc 2 with
  | none => rw [h2] at h; exact absurd h (by simp)
  | some hb =>
    rw [h2] at h
    simp only at h
    split at h
    · exact absurd h (by simp)
    · cases hp : readAt r (loc + 2) (u16le hb 0 % 32768) with
      | none => rw [hp] at h; exact absurd h (by simp)
      | some p =>
        rw [hp] at h
        simp at h
        obtain ⟨h1, h2⟩ := h
        subst h2
        omega

structure inodeHeader where
  inodeType : Nat
  mode : Nat
  uidIdx : Nat
  gidIdx : Nat
  modTime : Nat
  index : Nat
  deriving DecidableEq, Repr

/-- `readInodeHeader(f, offset)`: reads and positionally decodes the 16-byte
common inode header; read failures are fatal in the source (`log.Fatalf`),
modelled as an error. -/
def readInodeHeader (r : Src) (offset : Nat) : Except DecodeError inodeHeader :=
  match readAt r offset inodeHeaderSize with
  | none => .error .TruncatedRead
  | some b =>
    .ok { inodeType := u16le b 0, mode := u16le b 2, uidIdx := u16le b 4,
          gidIdx := u16le b 6, modTime := u32le b 8, index := u32le b 12 }

/-- `parseDirectoryInode(b, t)` returns `(dirBlockIndex, dirSize, offset)`;
the Go switch has no default case, so any type other than
`basicDirectory`/`extendedDirectory` leaves the three zero-initialised
variables untouched.  Callers pass a 20-byte buffer. -/
def parseDirectoryInode (b : List Byte) (t : Nat) : Nat × Nat × Nat :=
  if t = basicDirectory then (u32le b 0, u16le b 8, u16le b 10)
  else if t = extendedDirectory then (u32le b 8, u16le b 4, u16le b 18)
  else (0, 0, 0)

structure directoryHeader where
  count : Nat
  startBlock : Nat
  inode : Nat
  deriving DecidableEq, Repr

structure directoryEntryRaw where
  offset : Nat
  inodeNumber : Nat
  inodeType : Nat
  name : String
  isSubdirectory : Bool
  startBlock : Nat
  deriving DecidableEq, Repr

structure inodePointer where
  path : String
  inodeType : Nat
  block : Nat
  offset : Nat
  dirBlock : Nat
  dirOffset : Nat
  dirSize : Nat
  deriving DecidableEq, Repr

/-- Go `string(bytes)`: one character per byte (injective on 0..255). -/
def bytesToString (l : List Byte) : String :=
  ⟨l.map fun b => Char.ofNat b.val⟩

/-! ### Go `path.Clean` / `path.Join`

`parseDirectory` builds each child's path with `path.Join(p, entry.name)`.
`path.Join` concatenates the nonempty elements with `/` and applies
`path.Clean`; the definitions below transcribe `path/path.go`.  The cleaning
loop consumes at least one input character per iteration, so the fuel
`remaining.length + 1` passed by `goCleanChars` is never exhausted. -/

/-- The backtracking scan of Clean's `..` case: starting from `w`
(`out.w` after the initial decrement), step left while `w > dotdot` and the
character at `w` is not `/`. -/
def backW (out : List Char) (dotdot : Nat) : Nat → Nat
  | 0 => 0
  | w + 1 =>
    if dotdot < w + 1 ∧ out.getD (w + 1) ' ' ≠ '/' then backW out dotdot w
    else w + 1

/-- Clean's inner copy loop: copy characters up to (not including) the next
`/`, returning the copied element and the remaining input. -/
def copyElem : List Char → List Char × List Char
  | [] => ([], [])
  | c :: rest =>
    if c = '/' then ([], c :: rest)
    else
      let p := copyElem rest
      (c :: p.1, p.2)

/-- The main loop of Go `path.Clean` (state: `dotdot`, output buffer,
remaining input). -/
def cleanLoop (rooted : Bool) : Nat → Nat → List Char → List Char → List Char
  | 0, _, out, _ => out
  | fuel + 1, dotdot, out, remaining =>
    match remaining with
    | [] => out
    | c :: rest =>
      if c = '/' then
        -- empty path element
        cleanLoop rooted fuel dotdot out rest
      else if c = '.' ∧ (rest = [] ∨ rest.headD ' ' = '/') then
        -- . element
        cleanLoop rooted fuel dotdot out rest
      else if c = '.' ∧ rest.headD ' ' = '.' ∧
          (rest.tail = [] ∨ rest.tail.headD ' ' = '/') then
        -- .. element: backtrack, or append ".." when not rooted
        if dotdot < out.length then
          cleanLoop rooted fuel dotdot (out.take (backW out dotdot (out.length - 1))) rest.tail
        else if !rooted then
          let out2 := (if 0 < out.length then out ++ ['/'] else out) ++ ['.', '.']
          cleanLoop rooted fuel out2.length out2 rest.tail
        else
          cleanLoop rooted fuel dotdot out rest.tail
      else
        -- real path element: add a separator if needed, then copy it
        let out2 := if (rooted ∧ out.length ≠ 1) ∨ (¬rooted ∧ out.length ≠ 0)
          then out ++ ['/'] else out
        let p := copyElem (c :: rest)
        cleanLoop rooted fuel dotdot (out2 ++ p.1) p.2

/-- Go `path.Clean` over the character list of a byte string. -/
def goCleanChars (p : List Char) : List Char :=
  if p = [] then ['.']
  else
    let rooted := p.headD ' ' = '/'
    let out0 := if rooted then ['/'] else []
    let rem0 := if rooted then p.tail else p
    let dd0 := if rooted then 1 else 0
    let out := cleanLoop rooted (rem0.length + 1) dd0 out0 rem0
    if out = [] then ['.'] else out

def goClean (s : String) : String :=
  ⟨goCleanChars s.data⟩

/-- Go `path.Join` restricted to the two-argument form the source uses:
skip leading empty elements, join the rest with `/`, and Clean. -/
def goJoin (a b : String) : String :=
  if a = "" ∧ b = "" then ""
  else if a = "" then goClean b
  else goClean (a ++ "/" ++ b)

example : goJoin "/" "a" = "/a" := by decide
example : goJoin "/b" "c" = "/b/c" := by decide
example : goJoin "/" "." = "/" := by decide
example : goJoin "/" ".." = "/" := by decide
example : goJoin "/a" "b/c" = "/a/b/c" := by decide
example : goJoin "/a" ".." = "/" := by decide

/-- `parseDirectoryHeader(b)`: needs at least 12 bytes; `count` is the
stored field plus one, computed in `uint32` (hence the `% 2^32`). -/
def parseDirectoryHeader (b : List Byte) : Except DecodeError directoryHeader :=
  if b.length < dirHeaderSize then .error .TruncatedHeader
  else
    .ok { count := (u32le b 0 + 1) % 4294967296, startBlock := u32le b 4,
          inode := u32le b 8 }

/-- `parseDirectoryEntry(b)`: 8 fixed bytes, then `nameSize+1` name bytes.
The name-size guard compares the *stored* field against 256; the length
guard and the name slice use `realNameSize = nameSize + 1` (a `uint16`
addition).  Returns the entry and the number of bytes consumed. -/
def parseDirectoryEntry (b : List Byte) :
    Except DecodeError (directoryEntryRaw × Nat) :=
  -- offset = u16le b 0, inodeNumber = u16le b 2, entryType = u16le b 4,
  -- nameSize = u16le b 6, realNameSize = (nameSize + 1) % 2^16
  if b.length < dirEntryMinSize then .error .TruncatedEntry
  else if dirNameMaxSize < u16le b 6 then .error .OversizedName
  else if b.length < (u16le b 6 + 1) % 65536 + dirEntryMinSize then .error .TruncatedEntry
  else
    .ok ({ offset := u16le b 0, inodeNumber := u16le b 2, inodeType := u16le b 4,
           name := bytesToString ((b.drop 8).take ((u16le b 6 + 1) % 65536)),
           isSubdirectory := false, startBlock := 0 },
         8 + (u16le b 6 + 1) % 65536)

/-- The inner `for count ...` loop of `parseDirectory`: decode
`count` entries from the remaining bytes, building each `inodePointer` with
`path.Join(p, entry.name)`, the header's `startBlock` as block, and the
entry's offset.  Returns the pointers and the remaining suffix. -/
def parseDirEntries (p : String) (startBlock : Nat) :
    Nat → List Byte → Except DecodeError (List inodePointer × List Byte)
  | 0, rest => .ok ([], rest)
  | count + 1, rest =>
    match parseDirectoryEntry rest with
    | .error e => .error e
    | .ok (entry, size) =>
      match parseDirEntries p startBlock count (rest.drop size) with
      | .error e => .error e
      | .ok (es, rest') =>
        .ok ({ path := goJoin p entry.name, inodeType := entry.inodeType,
               block := startBlock, offset := entry.offset,
               dirBlock := 0, dirOffset := 0, dirSize := 0 } :: es, rest')

/-- The outer `for pos+dirHeaderSize < len(b)` loop of `parseDirectory`,
operating on the remaining suffix `b[pos:]` (all the Go indexing is
relative to `pos`).  The corruption guard rejects a header when
`count + 1 > maxDirEntries`, with `count + 1` again a `uint32` addition.
One unit of fuel is spent per group; each group consumes more than 12
bytes, so the `b.length` fuel supplied by `parseDirectory` cannot run out. -/
def parseDirLoop (p : String) :
    Nat → List Byte → Except DecodeError (List inodePointer)
  | 0, rest =>
    if dirHeaderSize < rest.length then .error .OutOfFuel else .ok []
  | f + 1, rest =>
    if dirHeaderSize < rest.length then
      match parseDirectoryHeader rest with
        | .error e => .error e
        | .ok h =>
          if maxDirEntries < (h.count + 1) % 4294967296 then
            .error .OversizedDirectory
          else
            match parseDirEntries p h.startBlock h.count (rest.drop dirHeaderSize) with
            | .error e => .error e
            | .ok (es, rest') =>
              match parseDirLoop p f rest' with
              | .error e => .error e
              | .ok more => .ok (es ++ more)
    else .ok []

/-- `parseDirectory(p, b)`. -/
def parseDirectory (p : String) (b : List Byte) :
    Except DecodeError (List inodePointer) :=
  parseDirLoop p b.length b

/-- Absolute inode-header location used by `walkTree`:
`inodeTable + inode.block*(metadataSize+2) + 2 + inode.offset`, where the
multiplication is a wrapping `uint32` product. -/
def inodeLocation (inodeTable : Nat) (inode : inodePointer) : Nat :=
  inodeTable + inode.block * (metadataSize + 2) % 4294967296 + 2 + inode.offset

/-- One node of `walkTree` up to (but not including) the recursion into the
children: decode the header at the node's location; for a directory kind,
read the 20-byte body, decode the directory reference, fill the pointer's
`dirBlock`/`dirOffset`/`dirSize`, read the directory's logical bytes and
decode its entries; for any other kind the node is a leaf with no further
reads.  The returned pointer carries the header-confirmed type (the
source's final `inode.inodeType = header.inodeType` assignment). -/
def resolveNode (r : Src) (inodeTable directoryTable mfuel : Nat)
    (inode : inodePointer) :
    Except DecodeError (inodePointer × List inodePointer) :=
  let start := inodeLocation inodeTable inode
  match readInodeHeader r start with
  | .error e => .error e
  | .ok header =>
    if header.inodeType = basicDirectory ∨ header.inodeType = extendedDirectory then
      match readAt r (start + inodeHeaderSize) 20 with
      | none => .error .TruncatedRead
      | some b =>
        let dso := parseDirectoryInode b header.inodeType
        let self := { inode with
                      inodeType := header.inodeType,
                      dirBlock := dso.1, dirOffset := dso.2.2, dirSize := dso.2.1 }
        match readMetadata mfuel r directoryTable dso.1 dso.2.2 dso.2.1 with
        | .error e => .error e
        | .ok b2 =>
          match parseDirectory self.path b2 with
          | .error e => .error e
          | .ok children => .ok (self, children)
    else .ok ({ inode with inodeType := header.inodeType }, [])

/-- Effectful map that stops at the first error, mirroring the source's
append-as-you-go recursion over the decoded children. -/
def mapME (f : α → Except DecodeError β) : List α → Except DecodeError (List β)
  | [] => .ok []
  | a :: as' =>
    match f a with
    | .error e => .error e
    | .ok b =>
      match mapME f as' with
      | .error e => .error e
      | .ok bs => .ok (b :: bs)

/-- One step of the walk given a procedure for the recursive calls. -/
def walkStep (r : Src) (inodeTable directoryTable mfuel : Nat)
    (recur : inodePointer → Except DecodeError (List inodePointer))
    (inode : inodePointer) : Except DecodeError (List inodePointer) :=
  match resolveNode r inodeTable directoryTable mfuel inode with
  | .error e => .error e
  | .ok (self, children) =>
    match mapME recur children with
    | .error e => .error e
    | .ok subs => .ok (self :: subs.flatten)

/-- `walkTree(f, inode, inodeTable, directoryTable)`: the node itself first,
then, in storage order, the full subtree of each decoded child.  Fuel bounds
the recursion depth (the Go source recurses unboundedly and would overflow
on a cyclic image); the same fuel is handed to `readMetadata` for its
block-chaining loop. -/
def walkTree (r : Src) (inodeTable directoryTable : Nat) :
    Nat → inodePointer → Except DecodeError (List inodePointer)
  | 0 => fun _ => .error .OutOfFuel
  | fuel + 1 => walkStep r inodeTable directoryTable fuel
      (walkTree r inodeTable directoryTable fuel)

theorem readMetadataBlock_no_panic (r : Src) (loc : Nat) :
    readMetadataBlock r loc ≠ .error .Panic := by
  unfold readMetadataBlock
  cases readAt r loc 2 with
  | none => simp
  | some hb =>
    simp only
    split
    · simp
    · cases readAt r (loc + 2) (u16le hb 0 % 32768) <;> simp

/-- Claim C3: `readBlock` fails with `UnsupportedCompression` exactly when
bit 15 of the little-endian 2-byte header is clear; the failure is decided
by the two header bytes alone (any source agreeing on them fails the same
way, so no payload byte is read or interpreted); and on success the
consumed-byte count is `2 + payload size`. -/
theorem readMetadataBlock_compression (r : Src) (loc : Nat) (b0 b1 : Byte)
    (h2 : readAt r loc 2 = some [b0, b1]) :
    ((readMetadataBlock r loc = .error .UnsupportedCompression) ↔ b1.val < 128)
    ∧ (∀ r' : Src, readAt r' loc 2 = some [b0, b1] → b1.val < 128 →
        readMetadataBlock r' loc = .error .UnsupportedCompression)
    ∧ (∀ n payload, readMetadataBlock r loc = .ok (n, payload) →
        128 ≤ b1.val ∧ n = 2 + payload.length) := by
  have hu : u16le [b0, b1] 0 = b0.val + 256 * b1.val := by
    simp [u16le, byteAt]
  have hb0 : b0.val < 256 := b0.isLt
  have key : ∀ r'' : Src, readAt r'' loc 2 = some [b0, b1] →
      readMetadataBlock r'' loc =
        (if u16le [b0, b1] 0 < 32768 then .error .UnsupportedCompression
         else
          match readAt r'' (loc + 2) (u16le [b0, b1] 0 % 32768) with
          | none => .error .TruncatedRead
          | some payload => .ok (payload.length + 2, payload)) := by
    intro r'' h
    unfold readMetadataBlock
    rw [h]
  constructor
  · rw [key r h2]
    split
    · rename_i hlt
      rw [hu] at hlt
      simp only [true_iff]
      omega
    · rename_i hge
      rw [hu] at hge
      have : 128 ≤ b1.val := by omega
      cases readAt r (loc + 2) (u16le [b0, b1] 0 % 32768) <;> simp <;> omega
  constructor
  · intro r' h' hlt
    rw [key r' h', if_pos (by rw [hu]; omega)]
  · intro n payload hok
    rw [key r h2] at hok
    split at hok
    · exact absurd hok (by simp)
    · rename_i hge
      rw [hu] at hge
      cases hp : readAt r (loc + 2) (u16le [b0, b1] 0 % 32768) with
      | none => rw [hp] at hok; exact absurd hok (by simp)
      | some p =>
        rw [hp] at hok
        simp only [Except.ok.injEq, Prod.mk.injEq] at hok
        obtain ⟨hn, hpay⟩ := hok
        subst hpay
        constructor
        · omega
        · omega

/-- Claim C9 (amended): for a type tag that is neither `basicDirectory` nor
`extendedDirectory`, `parseDirectoryInode` just returns the zero-initialised
triple — the function has no failure channel, so no `NotADirectory` error
can occur. -/
theorem parseDirectoryInode_other_type_zero (b : List Byte) (t : Nat)
    (h1 : t ≠ basicDirectory) (h2 : t ≠ extendedDirectory) :
    parseDirectoryInode b t = (0, 0, 0) := by
  simp [parseDirectoryInode, h1, h2]

/-- Claim C9 counterexample: called on a 20-byte buffer with the
`basicFile` type tag 2, `parseDirectoryInode` returns the zero triple
instead of failing with `NotADirectory` (its Go signature has no error
result at all). -/
theorem parseDirectoryInode_type2_returns_zeros :
    parseDirectoryInode (List.replicate 20 (7 : Byte)) 2 = (0, 0, 0) := rfl

theorem parseDirectoryInode_other_type_zero_witness :
    ((2 : Nat) ≠ basicDirectory ∧ (2 : Nat) ≠ extendedDirectory)
    ∧ parseDirectoryInode (List.replicate 20 (5 : Byte)) 2 = (0, 0, 0) :=
  ⟨⟨by decide, by decide⟩,
   parseDirectoryInode_other_type_zero _ 2 (by decide) (by decide)⟩

/-- Claim C5 (amended): given the 8 fixed bytes, the `OversizedName`
failure happens exactly when the *stored* name-size field exceeds 256 —
i.e. when the decoded name length exceeds 257, not 256. -/
theorem parseDirectoryEntry_oversizedName_iff (b : List Byte)
    (h : dirEntryMinSize ≤ b.length) :
    parseDirectoryEntry b = .error .OversizedName ↔ dirNameMaxSize < u16le b 6 := by
  unfold parseDirectoryEntry
  rw [if_neg (by omega)]
  split_ifs with h1 h2 <;> simp [h1]

def c5buf : List Byte := [0, 0, 0, 0, 0, 0, 0, 1] ++ List.replicate 257 97

/-- Claim C5 counterexample: an entry whose stored name-size field is 256
(decoded name length 257) is accepted, not rejected: with enough buffer the
decode succeeds and yields a 257-byte name. -/
theorem parseDirectoryEntry_name257_accepted :
    parseDirectoryEntry c5buf =
      .ok ({ offset := 0, inodeNumber := 0, inodeType := 0,
             name := String.mk (List.replicate 257 'a'),
             isSubdirectory := false, startBlock := 0 }, 265) := rfl

theorem parseDirectoryEntry_oversizedName_iff_witness :
    dirEntryMinSize ≤ ([0, 0, 0, 0, 0, 0, 1, 1] : List Byte).length
    ∧ (parseDirectoryEntry [0, 0, 0, 0, 0, 0, 1, 1] = .error .OversizedName
        ↔ dirNameMaxSize < u16le [0, 0, 0, 0, 0, 0, 1, 1] 6) :=
  ⟨by decide, parseDirectoryEntry_oversizedName_iff _ (by decide)⟩

theorem parseDirectoryEntry_error_kinds (b : List Byte) (e : DecodeError)
    (h : parseDirectoryEntry b = .error e) :
    e = .TruncatedEntry ∨ e = .OversizedName := by
  unfold parseDirectoryEntry at h
  split_ifs at h <;> simp at h <;> simp [← h]

theorem parseDirEntries_error_kinds (p : String) (sb : Nat) :
    ∀ count rest e, parseDirEntries p sb count rest = .error e →
      e = .TruncatedEntry ∨ e = .OversizedName := by
  intro count
  induction count with
  | zero => intro rest e h; simp [parseDirEntries] at h
  | succ n ih =>
    intro rest e h
    unfold parseDirEntries at h
    cases he : parseDirectoryEntry rest with
    | error e' =>
      rw [he] at h
      simp at h
      rw [← h]
      exact parseDirectoryEntry_error_kinds rest e' he
    | ok pr =>
      rw [he] at h
      simp only at h
      cases hrec : parseDirEntries p sb n (rest.drop pr.2) with
      | error e' =>
        rw [hrec] at h
        simp at h
        rw [← h]
        exact ih _ e' hrec
      | ok q =>
        rw [hrec] at h
        simp at h

theorem parseDirEntries_suffix (p : String) (sb : Nat) :
    ∀ count rest es rest', parseDirEntries p sb count rest = .ok (es, rest') →
      rest' <:+ rest := by
  intro count
  induction count with
  | zero =>
    intro rest es rest' h
    simp [parseDirEntries] at h
    simp [← h.2]
  | succ n ih =>
    intro rest es rest' h
    unfold parseDirEntries at h
    cases he : parseDirectoryEntry rest with
    | error e' => rw [he] at h; simp at h
    | ok pr =>
      rw [he] at h
      simp only at h
      cases hrec : parseDirEntries p sb n (rest.drop pr.2) with
      | error e' => rw [hrec] at h; simp at h
      | ok q =>
        rw [hrec] at h
        simp at h
        have hq : q.2 <:+ rest.drop pr.2 := by
          have := ih (rest.drop pr.2) q.1 q.2 (by rw [hrec])
          exact this
        have h2 : rest' = q.2 := by
          rw [← h.2]
        rw [h2]
        exact hq.trans (List.drop_suffix _ _)

/-- Shared first-group form of the `OversizedDirectory` guard: when more
than 12 bytes remain, the first group header is decoded and rejected as
soon as `count + 1 > maxDirEntries` (all arithmetic in `uint32`). -/
theorem parseDirectory_first_group_oversized (p : String) (b : List Byte)
    (hlen : dirHeaderSize < b.length)
    (hcnt : maxDirEntries < ((u32le b 0 + 1) % 4294967296 + 1) % 4294967296) :
    parseDirectory p b = .error .OversizedDirectory := by
  unfold parseDirectory
  obtain ⟨f, hf⟩ : ∃ f, b.length = f + 1 := ⟨b.length - 1, by omega⟩
  rw [hf, parseDirLoop, if_pos (hf ▸ hlen)]
  unfold parseDirectoryHeader
  rw [if_neg (by unfold dirHeaderSize at hlen ⊢; omega)]
  simp only
  rw [if_pos hcnt]

theorem parseDirLoop_oversized_suffix (p : String) :
    ∀ fuel rest, parseDirLoop p fuel rest = .error .OversizedDirectory →
      ∃ rest', rest' <:+ rest ∧ dirHeaderSize < rest'.length ∧
        maxDirEntries < ((u32le rest' 0 + 1) % 4294967296 + 1) % 4294967296 := by
  intro fuel
  induction fuel with
  | zero =>
    intro rest h
    rw [parseDirLoop] at h
    split_ifs at h
    simp at h
  | succ f ih =>
    intro rest h
    rw [parseDirLoop] at h
    split_ifs at h with hlen
    · unfold parseDirectoryHeader at h
      rw [if_neg (by unfold dirHeaderSize at hlen ⊢; omega)] at h
      simp only at h
      split_ifs at h with hcnt
      · exact ⟨rest, List.suffix_refl rest, hlen, hcnt⟩
      · cases he : parseDirEntries p (u32le rest 4) ((u32le rest 0 + 1) % 4294967296)
            (rest.drop dirHeaderSize) with
        | error e' =>
          rw [he] at h
          simp at h
          subst h
          rcases parseDirEntries_error_kinds p _ _ _ _ he with h' | h' <;> simp at h'
        | ok q =>
          rw [he] at h
          simp only at h
          cases hrec : parseDirLoop p f q.2 with
          | error e' =>
            rw [hrec] at h
            simp at h
            rw [h] at hrec
            obtain ⟨rest', hsuf, hl, hc⟩ := ih q.2 hrec
            refine ⟨rest', ?_, hl, hc⟩
            have : q.2 <:+ rest.drop dirHeaderSize :=
              parseDirEntries_suffix p _ _ _ _ _ he
            exact hsuf.trans (this.trans (List.drop_suffix _ _))
          | ok more =>
            rw [hrec] at h
            simp at h

/-- Claim C4 (amended): `OversizedDirectory` fires iff the run reaches a
group header whose `uint32` entry count `c = stored+1` has `c+1 > 256`,
i.e. (away from the `uint32` wrap) an entry count of 256 or more.  The
first conjunct shows any first-group header with that property is rejected;
the second shows the error only arises from such a header at some reached
suffix of the buffer. -/
theorem parseDirectory_oversized_guard :
    (∀ (p : String) (b : List Byte), dirHeaderSize < b.length →
      maxDirEntries < ((u32le b 0 + 1) % 4294967296 + 1) % 4294967296 →
      parseDirectory p b = .error .OversizedDirectory)
    ∧ (∀ (p : String) (b : List Byte),
      parseDirectory p b = .error .OversizedDirectory →
      ∃ rest, rest <:+ b ∧ dirHeaderSize < rest.length ∧
        maxDirEntries < ((u32le rest 0 + 1) % 4294967296 + 1) % 4294967296) :=
  ⟨fun p b hlen hcnt => parseDirectory_first_group_oversized p b hlen hcnt,
   fun p b h => parseDirLoop_oversized_suffix p b.length b h⟩

def c4buf : List Byte := (255 : Byte) :: List.replicate 12 0

/-- Claim C4 counterexample: a header with stored count field 255 — entry
count exactly 256 — IS rejected by the guard (the code checks
`count+1 > 256` where `count = stored+1`), contradicting the claim that an
entry count of 256 passes. -/
theorem parseDirectory_count256_rejected :
    parseDirectory "/" c4buf = .error .OversizedDirectory ∧
    u32le c4buf 0 = 255 := ⟨rfl, by decide⟩

theorem parseDirectory_oversized_guard_witness :
    (dirHeaderSize < c4buf.length ∧
      maxDirEntries < ((u32le c4buf 0 + 1) % 4294967296 + 1) % 4294967296)
    ∧ parseDirectory "/" c4buf = .error .OversizedDirectory
    ∧ (∃ rest, rest <:+ c4buf ∧ dirHeaderSize < rest.length ∧
        maxDirEntries < ((u32le rest 0 + 1) % 4294967296 + 1) % 4294967296) :=
  ⟨⟨by decide, by decide⟩,
   parseDirectory_oversized_guard.1 "/" c4buf (by decide) (by decide),
   parseDirectory_oversized_guard.2 "/" c4buf rfl⟩

/-- Claim C6 (amended): the group loop runs only while strictly more than
12 bytes remain: any buffer with 12 or fewer bytes left yields `ok []`
without decoding a header, and whenever more than 12 bytes remain the next
header really is decoded (witnessed by its guard firing). -/
theorem parseDirectory_loop_boundary :
    (∀ (p : String) (b : List Byte), b.length ≤ dirHeaderSize →
      parseDirectory p b = .ok [])
    ∧ (∀ (p : String) (b : List Byte), dirHeaderSize < b.length →
      maxDirEntries < ((u32le b 0 + 1) % 4294967296 + 1) % 4294967296 →
      parseDirectory p b = .error .OversizedDirectory) := by
  constructor
  · intro p b hle
    unfold parseDirectory
    cases hb : b.length with
    | zero => rw [parseDirLoop, if_neg (by omega)]
    | succ n => rw [parseDirLoop, if_neg (by omega)]
  · exact fun p b h1 h2 => parseDirectory_first_group_oversized p b h1 h2

def c6buf : List Byte := (255 : Byte) :: List.replicate 11 0

/-- Claim C6 counterexample: a buffer with exactly 12 bytes remaining is
NOT decoded as a header: this 12-byte buffer carries a stored count of 255,
which the guard would reject if the header were decoded, yet the decode
returns `ok []`. -/
theorem parseDirectory_exact12_skipped :
    parseDirectory "/" c6buf = .ok [] ∧ c6buf.length = dirHeaderSize ∧
    maxDirEntries < ((u32le c6buf 0 + 1) % 4294967296 + 1) % 4294967296 :=
  ⟨rfl, rfl, by decide⟩

theorem parseDirectory_loop_boundary_witness :
    (List.replicate 5 (0 : Byte)).length ≤ dirHeaderSize
    ∧ parseDirectory "x" (List.replicate 5 (0 : Byte)) = .ok []
    ∧ parseDirectory "/" c4buf = .error .OversizedDirectory :=
  ⟨by decide, parseDirectory_loop_boundary.1 "x" _ (by decide),
   parseDirectory_loop_boundary.2 "/" c4buf (by decide) (by decide)⟩

/-- A run of physically consecutive metadata blocks starting at `loc`:
each payload `m` was produced by a successful `readMetadataBlock` that
consumed `m.length + 2` bytes, and the next block starts right after. -/
def chainOk (r : Src) : Nat → List (List Byte) → Prop
  | _, [] => True
  | loc, m :: ps =>
    readMetadataBlock r loc = .ok (m.length + 2, m) ∧
      chainOk r (loc + (m.length + 2)) ps

theorem chainExitCase {size : Nat} {b out : List Byte}
    (hlt : ¬b.length < size) (h : List.take size b = out) (r : Src) (loc : Nat) :
    ∃ ps, chainOk r loc ps ∧
      out = (b ++ ps.flatten).take size ∧ out.length = size ∧
      ∀ i < ps.length, b.length + ((ps.take i).flatten).length < size := by
  refine ⟨[], trivial, ?_, ?_, by simp⟩
  · rw [← h]
    simp
  · rw [← h]
    simp
    omega

theorem readMetadataLoop_chain (r : Src) (fb size : Nat) :
    ∀ fuel bo read b out,
      readMetadataLoop r fb size fuel bo read b = .ok out →
      ∃ ps, chainOk r (fb + (bo + read)) ps ∧
        out = (b ++ ps.flatten).take size ∧ out.length = size ∧
        ∀ i < ps.length, b.length + ((ps.take i).flatten).length < size := by
  intro fuel
  induction fuel with
  | zero =>
    intro bo read b out h
    rw [readMetadataLoop] at h
    split_ifs at h with hlt
    exact chainExitCase hlt (Except.ok.inj h) r _
  | succ f ih =>
    intro bo read b out h
    rw [readMetadataLoop] at h
    split_ifs at h with hlt
    · cases hb : readMetadataBlock r (fb + (bo + read)) with
      | error e => rw [hb] at h; simp at h
      | ok pr =>
        obtain ⟨read', m⟩ := pr
        rw [hb] at h
        simp only at h
        obtain ⟨ps, hchain, hout, hlen, hmin⟩ := ih (bo + read) read' (b ++ m) out h
        have hcons : read' = m.length + 2 :=
          readMetadataBlock_consumed r (fb + (bo + read)) read' m hb
        refine ⟨m :: ps, ⟨?_, ?_⟩, ?_, hlen, ?_⟩
        · rw [hb, hcons]
        · have harith : fb + (bo + read) + (m.length + 2) = fb + (bo + read + read') := by
            omega
          rw [harith]
          exact hchain
        · rw [hout]
          simp [List.append_assoc]
        · intro i hi
          cases i with
          | zero => simpa using hlt
          | succ j =>
            have hj : j < ps.length := by simpa using hi
            have := hmin j hj
            simp only [List.take_succ_cons, List.flatten_cons, List.length_append] at this ⊢
            omega
    · exact chainExitCase hlt (Except.ok.inj h) r _

/-- Functional specification extracted from a successful `readMetadata`
call: the result has exactly the requested length and is the
`byteOffset`-shifted, `size`-truncated concatenation of a consecutive
block chain, with every block after the first read only because the
accumulated bytes still fell short of `size`. -/
theorem readMetadata_ok_spec (fuel : Nat) (r : Src) (fb ibo bo size : Nat)
    (out : List Byte) (h : readMetadata fuel r fb ibo bo size = .ok out) :
    out.length = size ∧
    ∃ m ps, chainOk r (fb + ibo) (m :: ps) ∧ bo ≤ m.length ∧
      out = ((m.drop bo) ++ ps.flatten).take size ∧
      ∀ i < ps.length, (m.drop bo).length + ((ps.take i).flatten).length < size := by
  unfold readMetadata at h
  cases hb : readMetadataBlock r (fb + ibo) with
  | error e => rw [hb] at h; simp at h
  | ok pr =>
    obtain ⟨read, m⟩ := pr
    rw [hb] at h
    simp only at h
    split_ifs at h with hbo
    · obtain ⟨ps, hchain, hout, hlen, hmin⟩ :=
        readMetadataLoop_chain r fb size fuel ibo read (m.drop bo) out h
      have hcons : read = m.length + 2 :=
        readMetadataBlock_consumed r (fb + ibo) read m hb
      refine ⟨hlen, m, ps, ⟨?_, ?_⟩, hbo, hout, ?_⟩
      · rw [hb, hcons]
      · have harith : fb + ibo + (m.length + 2) = fb + (ibo + read) := by omega
        rw [harith]
        exact hchain
      · simpa using hmin

theorem readMetadataLoop_no_panic (r : Src) (fb size : Nat) :
    ∀ fuel bo read b, readMetadataLoop r fb size fuel bo read b ≠ .error .Panic := by
  intro fuel
  induction fuel with
  | zero =>
    intro bo read b
    rw [readMetadataLoop]
    split_ifs <;> simp
  | succ f ih =>
    intro bo read b
    rw [readMetadataLoop]
    split_ifs with hlt
    · cases hb : readMetadataBlock r (fb + (bo + read)) with
      | error e =>
        intro hcon
        simp only [Except.error.injEq] at hcon
        rw [hcon] at hb
        exact readMetadataBlock_no_panic r _ hb
      | ok pr =>
        obtain ⟨read', m⟩ := pr
        simp only
        exact ih (bo + read) read' (b ++ m)
    · simp

/-- Claim C10: the `Panic` branch (Go's slice-bounds panic on
`m[byteOffset:]`) is taken exactly when the first block reads successfully
but its payload is shorter than the requested inner byte offset; under the
precondition `byteOffset ≤ len(payload)` it is unreachable. -/
theorem readMetadata_panic_iff (fuel : Nat) (r : Src) (fb ibo bo size : Nat) :
    readMetadata fuel r fb ibo bo size = .error .Panic ↔
      ∃ n m, readMetadataBlock r (fb + ibo) = .ok (n, m) ∧ m.length < bo := by
  unfold readMetadata
  cases hb : readMetadataBlock r (fb + ibo) with
  | error e =>
    constructor
    · intro h
      simp only [Except.error.injEq] at h
      rw [h] at hb
      exact absurd hb (readMetadataBlock_no_panic r _)
    · rintro ⟨n, m, hok, _⟩
      simp at hok
  | ok pr =>
    obtain ⟨read, m⟩ := pr
    simp only
    split_ifs with hbo
    · constructor
      · intro h
        exact absurd h (readMetadataLoop_no_panic r fb size fuel ibo read _)
      · rintro ⟨n, m', hok, hlt⟩
        simp only [Except.ok.injEq, Prod.mk.injEq] at hok
        obtain ⟨_, h2⟩ := hok
        subst h2
        omega
    · constructor
      · intro _
        exact ⟨read, m, rfl, by omega⟩
      · intro _
        rfl

theorem readAtAux_const (r : Src) (c : Byte) :
    ∀ n off acc, (∀ k, k < n → r (off + k) = some c) →
      readAtAux r off n acc = some (acc.reverse ++ List.replicate n c) := by
  intro n
  induction n with
  | zero =>
    intro off acc _
    simp [readAtAux]
  | succ n ih =>
    intro off acc h
    rw [readAtAux]
    have h0 : r off = some c := by simpa using h 0 (by omega)
    rw [h0]
    show readAtAux r (off + 1) n (c :: acc) = some (acc.reverse ++ List.replicate (n + 1) c)
    have hrest : ∀ k, k < n → r (off + 1 + k) = some c := by
      intro k hk
      have := h (k + 1) (by omega)
      have harith : off + (k + 1) = off + 1 + k := by omega
      rwa [harith] at this
    rw [ih (off + 1) (c :: acc) hrest]
    simp [List.replicate_succ]

theorem readAt_const (r : Src) (c : Byte) (off n : Nat)
    (h : ∀ k, k < n → r (off + k) = some c) :
    readAt r off n = some (List.replicate n c) := by
  simpa [readAt] using readAtAux_const r c n off [] h

theorem readMetadataLoop_step (r : Src) (fb size f bo read : Nat)
    (b : List Byte) (hlt : b.length < size) (pr : Nat × List Byte)
    (hb : readMetadataBlock r (fb + (bo + read)) = .ok pr) :
    readMetadataLoop r fb size (f + 1) bo read b =
      readMetadataLoop r fb size f (bo + read) pr.1 (b ++ pr.2) := by
  obtain ⟨read', m⟩ := pr
  rw [readMetadataLoop, if_pos hlt, hb]

theorem readMetadataLoop_done (r : Src) (fb size fuel bo read : Nat)
    (b : List Byte) (hge : ¬b.length < size) :
    readMetadataLoop r fb size fuel bo read b = .ok (b.take size) := by
  cases fuel with
  | zero => rw [readMetadataLoop, if_neg hge]
  | succ f => rw [readMetadataLoop, if_neg hge]

/-- Image for the block-spanning example of the specification: two
uncompressed metadata blocks of 8192 bytes each, the first starting at
byte 1000 with payload bytes 7, the second right after it (at 9194) with
payload bytes 9. -/
def exSrc2 : Src := fun i =>
  if i < 1000 then none
  else if i = 1000 then some 0
  else if i = 1001 then some 160
  else if i < 9194 then some 7
  else if i = 9194 then some 0
  else if i = 9195 then some 160
  else if i < 17388 then some 9
  else none

theorem exSrc2_block1 :
    readMetadataBlock exSrc2 1000 = .ok (8194, List.replicate 8192 7) := by
  have h2 : readAt exSrc2 1000 2 = some [0, 160] := rfl
  have hsize : u16le [(0 : Byte), 160] 0 % 32768 = 8192 := by decide
  have hp : readAt exSrc2 (1000 + 2) 8192 = some (List.replicate 8192 7) := by
    apply readAt_const
    intro k hk
    simp only [exSrc2]
    rw [if_neg (by omega), if_neg (by omega), if_neg (by omega), if_pos (by omega)]
  simp only [readMetadataBlock, h2, hsize]
  rw [if_neg (by decide)]
  rw [hp]
  show Except.ok ((List.replicate 8192 (7 : Byte)).length + 2, List.replicate 8192 (7 : Byte)) =
    .ok (8194, List.replicate 8192 7)
  rw [List.length_replicate]

theorem exSrc2_block2 :
    readMetadataBlock exSrc2 9194 = .ok (8194, List.replicate 8192 9) := by
  have h2 : readAt exSrc2 9194 2 = some [0, 160] := rfl
  have hsize : u16le [(0 : Byte), 160] 0 % 32768 = 8192 := by decide
  have hp : readAt exSrc2 (9194 + 2) 8192 = some (List.replicate 8192 9) := by
    apply readAt_const
    intro k hk
    simp only [exSrc2]
    rw [if_neg (by omega), if_neg (by omega), if_neg (by omega), if_neg (by omega),
      if_neg (by omega), if_neg (by omega), if_pos (by omega)]
  simp only [readMetadataBlock, h2, hsize]
  rw [if_neg (by decide)]
  rw [hp]
  show Except.ok ((List.replicate 8192 (9 : Byte)).length + 2, List.replicate 8192 (9 : Byte)) =
    .ok (8194, List.replicate 8192 9)
  rw [List.length_replicate]

theorem readMetadata_eq_loop (fuel : Nat) (r : Src) (fb ibo bo size : Nat)
    (pr : Nat × List Byte) (hb : readMetadataBlock r (fb + ibo) = .ok pr)
    (hbo : bo ≤ pr.2.length) :
    readMetadata fuel r fb ibo bo size =
      readMetadataLoop r fb size fuel ibo pr.1 (pr.2.drop bo) := by
  obtain ⟨read, m⟩ := pr
  unfold readMetadata
  rw [hb]
  simp only
  rw [if_pos hbo]

theorem readMetadata_example8192 :
    readMetadata 2 exSrc2 1000 0 8092 500 =
      .ok (List.replicate 100 (7 : Byte) ++ List.replicate 400 (9 : Byte)) := by
  rw [readMetadata_eq_loop 2 exSrc2 1000 0 8092 500 (8194, List.replicate 8192 7)
    exSrc2_block1 (by rw [List.length_replicate]; omega)]
  rw [List.drop_replicate]
  rw [show (8192 - 8092 : Nat) = 100 from rfl]
  rw [show (2 : Nat) = 1 + 1 from rfl]
  rw [readMetadataLoop_step exSrc2 1000 500 1 0 8194 _
    (by rw [List.length_replicate]; omega) (8194, List.replicate 8192 9) exSrc2_block2]
  rw [readMetadataLoop_done exSrc2 1000 500 1 (0 + 8194) 8194 _
    (by rw [List.length_append, List.length_replicate, List.length_replicate]; omega)]
  simp only [List.take_append_eq_append_take, List.take_replicate, List.length_replicate]
  rfl

/-- Claim C2: every successful `readMetadata` returns exactly `size` bytes,
equal to the `byteOffset`-shifted concatenation of a consecutive chain of
block payloads truncated to `size`, each extra block being read only while
the accumulated bytes still fell short; and the specification's concrete
example — 500 bytes starting 100 bytes before the end of an 8192-byte
block — consumes two physical blocks and returns the tail of block 1
followed by the head of block 2. -/
theorem readMetadata_spans_blocks :
    (∀ (fuel : Nat) (r : Src) (fb ibo bo size : Nat) (out : List Byte),
      readMetadata fuel r fb ibo bo size = .ok out →
      out.length = size ∧
      ∃ m ps, chainOk r (fb + ibo) (m :: ps) ∧ bo ≤ m.length ∧
        out = ((m.drop bo) ++ ps.flatten).take size ∧
        ∀ i < ps.length, (m.drop bo).length + ((ps.take i).flatten).length < size)
    ∧ (readMetadata 2 exSrc2 1000 0 8092 500 =
         .ok (List.replicate 100 (7 : Byte) ++ List.replicate 400 (9 : Byte))
       ∧ readMetadataBlock exSrc2 1000 = .ok (8194, List.replicate 8192 7)
       ∧ readMetadataBlock exSrc2 9194 = .ok (8194, List.replicate 8192 9)
       ∧ List.replicate 100 (7 : Byte) ++ List.replicate 400 (9 : Byte) =
           ((List.replicate 8192 (7 : Byte)).drop 8092 ++
             List.replicate 8192 (9 : Byte)).take 500) :=
  ⟨readMetadata_ok_spec,
   readMetadata_example8192, exSrc2_block1, exSrc2_block2, by
    rw [List.drop_replicate]
    rw [show (8192 - 8092 : Nat) = 100 from rfl]
    simp only [List.take_append_eq_append_take, List.take_replicate, List.length_replicate]
    rfl⟩

/-- Tiny single-block image used by the concrete witnesses: an 8-byte
uncompressed payload `[2,3,4,5,6,7,8,9]` at location 0. -/
def exSrcW2 : Src := fun i =>
  if i = 0 then some 8
  else if i = 1 then some 128
  else if i < 10 then some (Fin.ofNat i)
  else none

theorem readMetadata_spans_blocks_witness :
    readMetadata 1 exSrcW2 0 0 2 4 = .ok [4, 5, 6, 7]
    ∧ (([4, 5, 6, 7] : List Byte).length = 4 ∧
       ∃ m ps, chainOk exSrcW2 (0 + 0) (m :: ps) ∧ 2 ≤ m.length ∧
         ([4, 5, 6, 7] : List Byte) = ((m.drop 2) ++ ps.flatten).take 4 ∧
         ∀ i < ps.length, (m.drop 2).length + ((ps.take i).flatten).length < 4) :=
  ⟨rfl, readMetadata_spans_blocks.1 1 exSrcW2 0 0 2 4 [4, 5, 6, 7] rfl⟩

theorem readMetadata_panic_iff_witness :
    readMetadata 1 exSrcW2 0 0 9 4 = .error .Panic ↔
      ∃ n m, readMetadataBlock exSrcW2 (0 + 0) = .ok (n, m) ∧ m.length < 9 :=
  readMetadata_panic_iff 1 exSrcW2 0 0 9 4

theorem readMetadataBlock_compression_witness :
    readAt exSrcW2 0 2 = some [8, 128]
    ∧ (((readMetadataBlock exSrcW2 0 = .error .UnsupportedCompression) ↔
          (128 : Byte).val < 128)
       ∧ (∀ r' : Src, readAt r' 0 2 = some [8, 128] → (128 : Byte).val < 128 →
           readMetadataBlock r' 0 = .error .UnsupportedCompression)
       ∧ (∀ n payload, readMetadataBlock exSrcW2 0 = .ok (n, payload) →
           128 ≤ (128 : Byte).val ∧ n = 2 + payload.length)) :=
  ⟨rfl, readMetadataBlock_compression exSrcW2 0 8 128 rfl⟩

theorem parseDirEntries_paths (p : String) (sb : Nat) :
    ∀ count rest es rest', parseDirEntries p sb count rest = .ok (es, rest') →
      ∀ e ∈ es, ∃ name, e.path = goJoin p name := by
  intro count
  induction count with
  | zero =>
    intro rest es rest' h e he
    simp [parseDirEntries] at h
    rw [h.1] at he
    simp at he
  | succ n ih =>
    intro rest es rest' h e he
    unfold parseDirEntries at h
    cases hpe : parseDirectoryEntry rest with
    | error e' => rw [hpe] at h; simp at h
    | ok pr =>
      rw [hpe] at h
      simp only at h
      cases hrec : parseDirEntries p sb n (rest.drop pr.2) with
      | error e' => rw [hrec] at h; simp at h
      | ok q =>
        rw [hrec] at h
        simp only [Except.ok.injEq, Prod.mk.injEq] at h
        obtain ⟨h1, _⟩ := h
        rw [← h1] at he
        simp only [List.mem_cons] at he
        rcases he with he | he
        · exact ⟨pr.1.name, by rw [he]⟩
        · exact ih _ q.1 q.2 (by rw [hrec]) e he

theorem parseDirLoop_paths (p : String) :
    ∀ fuel rest out, parseDirLoop p fuel rest = .ok out →
      ∀ e ∈ out, ∃ name, e.path = goJoin p name := by
  intro fuel
  induction fuel with
  | zero =>
    intro rest out h e he
    rw [parseDirLoop] at h
    split_ifs at h
    rw [← Except.ok.inj h] at he
    simp at he
  | succ f ih =>
    intro rest out h e he
    rw [parseDirLoop] at h
    split_ifs at h with hlen
    · cases hh : parseDirectoryHeader rest with
      | error e' => rw [hh] at h; simp at h
      | ok hd =>
        rw [hh] at h
        simp only at h
        split_ifs at h with hcnt
        cases hpe : parseDirEntries p hd.startBlock hd.count (rest.drop dirHeaderSize) with
        | error e' => rw [hpe] at h; simp at h
        | ok q =>
          rw [hpe] at h
          simp only at h
          cases hrec : parseDirLoop p f q.2 with
          | error e' => rw [hrec] at h; simp at h
          | ok more =>
            rw [hrec] at h
            simp only [Except.ok.injEq] at h
            rw [← h] at he
            rw [List.mem_append] at he
            rcases he with he | he
            · exact parseDirEntries_paths p hd.startBlock hd.count _ q.1 q.2
                (by rw [hpe]) e he
            · exact ih q.2 more (by rw [hrec]) e he
    · rw [← Except.ok.inj h] at he
      simp at he

/-- Claim C7 (amended): every pointer produced by the directory decoder has
path `path.Join(ownerPath, name)` for some decoded name — and Go's
`path.Join` normalizes (Clean): names such as `.`, `..` or names containing
`/` are not kept verbatim as one path segment. -/
theorem parseDirectory_paths_joined (p : String) (b : List Byte)
    (out : List inodePointer) (h : parseDirectory p b = .ok out) :
    ∀ e ∈ out, ∃ name, e.path = goJoin p name :=
  parseDirLoop_paths p b.length b out h

/-- One directory group whose single entry is named `.` (byte 46). -/
def c7buf : List Byte :=
  [0, 0, 0, 0, 0, 0, 0, 0, 0, 0, 0, 0] ++ [0, 0, 0, 0, 2, 0, 0, 0] ++ [46]

/-- Claim C7 counterexample: the entry named `.` under owner `/` yields
path `/` — `path.Join` cleans the name rather than appending it verbatim
as the segment `/.`. -/
theorem parseDirectory_dot_name_cleaned :
    parseDirectory "/" c7buf =
      .ok [{ path := "/", inodeType := 2, block := 0, offset := 0,
             dirBlock := 0, dirOffset := 0, dirSize := 0 }]
    ∧ goJoin "/" "." = "/" ∧ ("/" : String) ≠ "/." :=
  ⟨rfl, rfl, by decide⟩

theorem parseDirectory_paths_joined_witness :
    parseDirectory "/" c7buf =
      .ok [{ path := "/", inodeType := 2, block := 0, offset := 0,
             dirBlock := 0, dirOffset := 0, dirSize := 0 }]
    ∧ ∃ name, ({ path := "/", inodeType := 2, block := 0, offset := 0,
                 dirBlock := 0, dirOffset := 0, dirSize := 0 } : inodePointer).path =
        goJoin "/" name :=
  ⟨rfl, parseDirectory_paths_joined "/" c7buf
    [{ path := "/", inodeType := 2, block := 0, offset := 0,
       dirBlock := 0, dirOffset := 0, dirSize := 0 }] rfl _ (by simp)⟩

theorem mapME_nil (f : α → Except DecodeError β) : mapME f [] = .ok [] := rfl

theorem mapME_cons_ok (f : α → Except DecodeError β) (a : α) (as' : List α)
    (b : β) (bs : List β) (h1 : f a = .ok b) (h2 : mapME f as' = .ok bs) :
    mapME f (a :: as') = .ok (b :: bs) := by
  unfold mapME
  rw [h1, h2]

theorem walkTree_succ_ok (r : Src) (it dt fuel : Nat) (ptr self : inodePointer)
    (children : List inodePointer) (subs : List (List inodePointer))
    (h1 : resolveNode r it dt fuel ptr = .ok (self, children))
    (h2 : mapME (walkTree r it dt fuel) children = .ok subs) :
    walkTree r it dt (fuel + 1) ptr = .ok (self :: subs.flatten) := by
  show walkStep r it dt fuel (walkTree r it dt fuel) ptr = _
  unfold walkStep
  rw [h1]
  simp only
  rw [h2]

theorem mapME_ok_forall (f : α → Except DecodeError β) :
    ∀ l l', mapME f l = .ok l' →
      List.Forall₂ (fun a b => f a = .ok b) l l' := by
  intro l
  induction l with
  | nil =>
    intro l' h
    simp [mapME] at h
    rw [h]
    exact List.Forall₂.nil
  | cons a as' ih =>
    intro l' h
    unfold mapME at h
    cases hf : f a with
    | error e => rw [hf] at h; simp at h
    | ok b =>
      rw [hf] at h
      simp only at h
      cases hm : mapME f as' with
      | error e => rw [hm] at h; simp at h
      | ok bs =>
        rw [hm] at h
        simp only [Except.ok.injEq] at h
        rw [← h]
        exact List.Forall₂.cons hf (ih bs hm)

theorem walkTree_preorder_aux (r : Src) (it dt fuel : Nat) (ptr : inodePointer)
    (out : List inodePointer) (h : walkTree r it dt (fuel + 1) ptr = .ok out) :
    ∃ self children subs,
      resolveNode r it dt fuel ptr = .ok (self, children) ∧
      List.Forall₂ (fun c s => walkTree r it dt fuel c = .ok s) children subs ∧
      out = self :: subs.flatten := by
  rw [show walkTree r it dt (fuel + 1) ptr =
    walkStep r it dt fuel (walkTree r it dt fuel) ptr from rfl] at h
  unfold walkStep at h
  cases hres : resolveNode r it dt fuel ptr with
  | error e => rw [hres] at h; simp at h
  | ok pr =>
    obtain ⟨self, children⟩ := pr
    rw [hres] at h
    simp only at h
    cases hm : mapME (walkTree r it dt fuel) children with
    | error e => rw [hm] at h; simp at h
    | ok subs =>
      rw [hm] at h
      simp only [Except.ok.injEq] at h
      exact ⟨self, children, subs, rfl, mapME_ok_forall _ children subs hm, h.symm⟩

/-- Byte values of the example image for the walk: inode table at 0 holding
a root directory (type 1, offset 0), a file `a` (type 2, offset 64), a
directory `b` (type 1, offset 128) and a file `c` (type 2, offset 192);
one uncompressed 51-byte directory-table block at 1000 holding the two
directory listings (root: entries `a`, `b`; b: entry `c`). -/
def exVal (i : Nat) : Nat :=
  if i = 2 then 1
  else if i = 14 then 1
  else if i = 26 then 30
  else if i = 66 then 2
  else if i = 130 then 1
  else if i = 154 then 21
  else if i = 156 then 30
  else if i = 194 then 2
  else if i = 1000 then 51
  else if i = 1001 then 128
  else if i = 1002 then 1
  else if i = 1010 then 1
  else if i = 1014 then 64
  else if i = 1016 then 1
  else if i = 1018 then 2
  else if i = 1022 then 97
  else if i = 1023 then 128
  else if i = 1025 then 2
  else if i = 1027 then 1
  else if i = 1031 then 98
  else if i = 1040 then 2
  else if i = 1044 then 192
  else if i = 1046 then 1
  else if i = 1048 then 2
  else if i = 1052 then 99
  else 0

def exSrc : Src := fun i => if i < 1053 then some (Fin.ofNat (exVal i)) else none

def exRoot : inodePointer := ⟨"/", 1, 0, 0, 0, 0, 0⟩

def exRootSelf : inodePointer := ⟨"/", 1, 0, 0, 0, 0, 30⟩

def exA : inodePointer := ⟨"/a", 2, 0, 64, 0, 0, 0⟩

def exB : inodePointer := ⟨"/b", 1, 0, 128, 0, 0, 0⟩

def exBSelf : inodePointer := ⟨"/b", 1, 0, 128, 0, 30, 21⟩

def exC : inodePointer := ⟨"/b/c", 2, 0, 192, 0, 0, 0⟩

theorem exResolveRoot :
    resolveNode exSrc 0 1000 3 exRoot = .ok (exRootSelf, [exA, exB]) := rfl

theorem exWalkA : walkTree exSrc 0 1000 3 exA = .ok [exA] := rfl

theorem exWalkC : walkTree exSrc 0 1000 2 exC = .ok [exC] := rfl

theorem exResolveB :
    resolveNode exSrc 0 1000 2 exB = .ok (exBSelf, [exC]) := rfl

theorem exWalkB : walkTree exSrc 0 1000 3 exB = .ok [exBSelf, exC] := by
  have h2 : mapME (walkTree exSrc 0 1000 2) [exC] = .ok [[exC]] :=
    mapME_cons_ok _ _ _ _ _ exWalkC (mapME_nil _)
  exact walkTree_succ_ok exSrc 0 1000 2 exB exBSelf [exC] [[exC]] exResolveB h2

theorem exWalkRoot :
    walkTree exSrc 0 1000 4 exRoot = .ok [exRootSelf, exA, exBSelf, exC] := by
  have h2 : mapME (walkTree exSrc 0 1000 3) [exA, exB] = .ok [[exA], [exBSelf, exC]] :=
    mapME_cons_ok _ _ _ _ _ exWalkA
      (mapME_cons_ok _ _ _ _ _ exWalkB (mapME_nil _))
  exact walkTree_succ_ok exSrc 0 1000 3 exRoot exRootSelf [exA, exB]
    [[exA], [exBSelf, exC]] exResolveRoot h2

/-- Claim C1: on the example image the walk yields exactly the ordered
paths `/`, `/a`, `/b`, `/b/c` (with `/b/c` strictly after `/b`); and in
general every successful walk emits the node itself first, followed by the
concatenation, in directory-table storage order, of the full subtree of
each decoded child. -/
theorem walkTree_preorder :
    (walkTree exSrc 0 1000 4 exRoot = .ok [exRootSelf, exA, exBSelf, exC]
      ∧ exRootSelf.path = "/" ∧ exA.path = "/a" ∧ exBSelf.path = "/b"
      ∧ exC.path = "/b/c")
    ∧ (∀ (r : Src) (it dt fuel : Nat) (ptr : inodePointer)
        (out : List inodePointer),
      walkTree r it dt (fuel + 1) ptr = .ok out →
      ∃ self children subs,
        resolveNode r it dt fuel ptr = .ok (self, children) ∧
        List.Forall₂ (fun c s => walkTree r it dt fuel c = .ok s) children subs ∧
        out = self :: subs.flatten) :=
  ⟨⟨exWalkRoot, rfl, rfl, rfl, rfl⟩, walkTree_preorder_aux⟩

theorem walkTree_preorder_witness :
    ∃ self children subs,
      resolveNode exSrc 0 1000 3 exRoot = .ok (self, children) ∧
      List.Forall₂ (fun c s => walkTree exSrc 0 1000 3 c = .ok s) children subs ∧
      [exRootSelf, exA, exBSelf, exC] = self :: subs.flatten :=
  walkTree_preorder.2 exSrc 0 1000 3 exRoot [exRootSelf, exA, exBSelf, exC]
    walkTree_preorder.1.1

/-- Claim C8 (amended): an inode whose header type tag is neither directory
kind — including tags outside the 14 defined kinds — is processed as a
leaf: the walk emits the node with its header-confirmed type and continues;
no `UnrecognizedInodeType` failure exists in the code. -/
theorem walkTree_unknown_type_leaf (r : Src) (it dt fuel : Nat)
    (ptr : inodePointer) (h : inodeHeader)
    (hread : readInodeHeader r (inodeLocation it ptr) = .ok h)
    (h1 : h.inodeType ≠ basicDirectory) (h2 : h.inodeType ≠ extendedDirectory) :
    walkTree r it dt (fuel + 1) ptr = .ok [{ ptr with inodeType := h.inodeType }] := by
  have hres : resolveNode r it dt fuel ptr =
      .ok ({ ptr with inodeType := h.inodeType }, []) := by
    simp only [resolveNode]
    rw [hread]
    simp only
    rw [if_neg (by simp [h1, h2])]
  exact walkTree_succ_ok r it dt fuel ptr _ [] [] hres (mapME_nil _)

/-- Byte values of the image with an unrecognized inode type: a root
directory at inode offset 0 whose single entry `x` (inode offset 64)
carries header type tag 99; directory table at 500. -/
def ex8Val (i : Nat) : Nat :=
  if i = 2 then 1
  else if i = 26 then 21
  else if i = 66 then 99
  else if i = 500 then 21
  else if i = 501 then 128
  else if i = 510 then 1
  else if i = 514 then 64
  else if i = 516 then 1
  else if i = 518 then 2
  else if i = 522 then 120
  else 0

def exSrc8 : Src := fun i => if i < 523 then some (Fin.ofNat (ex8Val i)) else none

def ex8Root : inodePointer := ⟨"/", 1, 0, 0, 0, 0, 0⟩

def ex8RootSelf : inodePointer := ⟨"/", 1, 0, 0, 0, 0, 21⟩

def ex8X : inodePointer := ⟨"/x", 2, 0, 64, 0, 0, 0⟩

def ex8XSelf : inodePointer := ⟨"/x", 99, 0, 64, 0, 0, 0⟩

theorem ex8ResolveRoot :
    resolveNode exSrc8 0 500 2 ex8Root = .ok (ex8RootSelf, [ex8X]) := rfl

theorem ex8WalkX : walkTree exSrc8 0 500 2 ex8X = .ok [ex8XSelf] := rfl

/-- Claim C8 counterexample: the inode behind `/x` carries type tag 99 —
outside the 14 defined kinds — and yet the walk succeeds, emitting `/x` as
a leaf instead of failing with a decode error. -/
theorem walkTree_unknown_type_no_error :
    walkTree exSrc8 0 500 3 ex8Root = .ok [ex8RootSelf, ex8XSelf]
    ∧ readInodeHeader exSrc8 (inodeLocation 0 ex8X) =
        .ok { inodeType := 99, mode := 0, uidIdx := 0, gidIdx := 0,
              modTime := 0, index := 0 } := by
  constructor
  · have h2 : mapME (walkTree exSrc8 0 500 2) [ex8X] = .ok [[ex8XSelf]] :=
      mapME_cons_ok _ _ _ _ _ ex8WalkX (mapME_nil _)
    exact walkTree_succ_ok exSrc8 0 500 2 ex8Root ex8RootSelf [ex8X] [[ex8XSelf]]
      ex8ResolveRoot h2
  · rfl

theorem walkTree_unknown_type_leaf_witness :
    readInodeHeader exSrc8 (inodeLocation 0 ex8X) =
      .ok { inodeType := 99, mode := 0, uidIdx := 0, gidIdx := 0,
            modTime := 0, index := 0 }
    ∧ (99 : Nat) ≠ basicDirectory ∧ (99 : Nat) ≠ extendedDirectory
    ∧ walkTree exSrc8 0 500 2 ex8X = .ok [ex8XSelf] :=
  ⟨rfl, by decide, by decide,
   walkTree_unknown_type_leaf exSrc8 0 500 1 ex8X
     { inodeType := 99, mode := 0, uidIdx := 0, gidIdx := 0,
       modTime := 0, index := 0 }
     rfl (by decide) (by decide)⟩
